import Mathlib

/-!
Shallow embedding of the segmentation notebook
(exercises/2-segmentation-hands-on/starter/Segmentation hands-on.ipynb):
a 2D U-Net (PyTorch), a slice-wise training loop over one CT volume,
slice-wise inference with arg-max reconstruction, and NIFTI persistence
that copies the affine of the source volume.

Tensors are modelled at two levels:
- shape level: a tensor is its (channels, height, width) triple, and each
  layer is a partial shape-transfer function (Option-valued, none on the
  shape mismatches the library would reject);
- value level: slices are lists of lists of rationals, the final softmax
  is modelled over an abstract strictly positive exponential-like map,
  and numpy division is additionally modelled on an IEEE-style value
  domain with NaN and infinities for the division-by-zero analysis.
-/

set_option autoImplicit false

/-! ### Shape-level embedding of the UNet layers -/

/-- Shape of a (single-image) 2D tensor: channels, height, width. -/
structure TShape where
  c : Nat
  h : Nat
  w : Nat
deriving DecidableEq, Repr

/-- Shape semantics of nn.Conv2d(in_channels, out_channels, kernel_size=3,
padding=1): spatial size is preserved (output H = H + 2*1 - 3 + 1 = H);
fails if the input channel count differs or a spatial dim is empty. -/
def conv2d3x3 (in_channels out_channels : Nat) (s : TShape) : Option TShape :=
  if s.c = in_channels ∧ 1 ≤ s.h ∧ 1 ≤ s.w then some ⟨out_channels, s.h, s.w⟩ else none

/-- Shape semantics of nn.BatchNorm2d(num_features): identity on shapes,
fails if the channel count differs from num_features. -/
def batchNorm2d (num_features : Nat) (s : TShape) : Option TShape :=
  if s.c = num_features then some s else none

/-- Shape semantics of nn.ReLU: identity on shapes. -/
def relu2d (s : TShape) : Option TShape :=
  some s

/-- Shape semantics of nn.MaxPool2d(kernel_size=2, stride=2): halves both
spatial dims (floor); fails if the input is smaller than the kernel. -/
def maxPool2x2 (s : TShape) : Option TShape :=
  if 2 ≤ s.h ∧ 2 ≤ s.w then some ⟨s.c, s.h / 2, s.w / 2⟩ else none

/-- Shape semantics of nn.ConvTranspose2d(in_channels, out_channels,
kernel_size=2, stride=2): doubles both spatial dims
(output H = (H - 1) * 2 + 2 = 2 * H); fails on a channel mismatch. -/
def convTranspose2x2 (in_channels out_channels : Nat) (s : TShape) : Option TShape :=
  if s.c = in_channels ∧ 1 ≤ s.h ∧ 1 ≤ s.w then some ⟨out_channels, 2 * s.h, 2 * s.w⟩ else none

/-- Shape semantics of torch.cat((a, b), dim=1): concatenation along the
channel axis; fails unless the spatial dims agree. -/
def catChannel (s1 s2 : TShape) : Option TShape :=
  if s1.h = s2.h ∧ s1.w = s2.w then some ⟨s1.c + s2.c, s1.h, s1.w⟩ else none

/-- Shape semantics of the final nn.Conv2d(features, out_channels,
kernel_size=1): changes only the channel count. -/
def conv2d1x1 (in_channels out_channels : Nat) (s : TShape) : Option TShape :=
  if s.c = in_channels ∧ 1 ≤ s.h ∧ 1 ≤ s.w then some ⟨out_channels, s.h, s.w⟩ else none

/-- Shape semantics of nn.Softmax(dim=1): identity on shapes. -/
def softmaxDim1 (s : TShape) : Option TShape :=
  some s

/-- Monadic sequencing for Option, used to chain the partial layer
semantics: none (a shape error) aborts the rest of the forward pass. -/
def obind {α β : Type} (o : Option α) (f : α → Option β) : Option β :=
  match o with
  | none => none
  | some a => f a

/-- Shape semantics of UNet.unet_block(in_channels, features): Conv2d 3x3
(bias=False), BatchNorm2d, ReLU, Conv2d 3x3 (bias=False), BatchNorm2d,
ReLU, exactly as in the notebook. -/
def unet_block (in_channels features : Nat) (s : TShape) : Option TShape :=
  obind (conv2d3x3 in_channels features s) fun a =>
  obind (batchNorm2d features a) fun b =>
  obind (relu2d b) fun c =>
  obind (conv2d3x3 features features c) fun d =>
  obind (batchNorm2d features d) fun e =>
  relu2d e

/-- Shape semantics of UNet.forward for a UNet(in_channels, out_channels,
init_features): the contracting path enc1..enc4 with 2x2 max-pooling, the
bottleneck, and the expanding path of transposed convolutions, channel
concatenations with the cached encoder activations, decoder blocks, the
final 1x1 convolution, and the softmax. -/
def forwardShape (in_channels out_channels init_features : Nat) (x : TShape) : Option TShape :=
  let features := init_features
  obind (unet_block in_channels features x) fun enc1 =>
  obind (maxPool2x2 enc1) fun p1 =>
  obind (unet_block features (features * 2) p1) fun enc2 =>
  obind (maxPool2x2 enc2) fun p2 =>
  obind (unet_block (features * 2) (features * 4) p2) fun enc3 =>
  obind (maxPool2x2 enc3) fun p3 =>
  obind (unet_block (features * 4) (features * 8) p3) fun enc4 =>
  obind (maxPool2x2 enc4) fun p4 =>
  obind (unet_block (features * 8) (features * 16) p4) fun bottleneck =>
  obind (convTranspose2x2 (features * 16) (features * 8) bottleneck) fun u4 =>
  obind (catChannel u4 enc4) fun cat4 =>
  obind (unet_block ((features * 8) * 2) (features * 8) cat4) fun dec4 =>
  obind (convTranspose2x2 (features * 8) (features * 4) dec4) fun u3 =>
  obind (catChannel u3 enc3) fun cat3 =>
  obind (unet_block ((features * 4) * 2) (features * 4) cat3) fun dec3 =>
  obind (convTranspose2x2 (features * 4) (features * 2) dec3) fun u2 =>
  obind (catChannel u2 enc2) fun cat2 =>
  obind (unet_block ((features * 2) * 2) (features * 2) cat2) fun dec2 =>
  obind (convTranspose2x2 (features * 2) features dec2) fun u1 =>
  obind (catChannel u1 enc1) fun cat1 =>
  obind (unet_block (features * 2) features cat1) fun dec1 =>
  obind (conv2d1x1 features out_channels dec1) fun out_conv =>
  softmaxDim1 out_conv

/-- The four skip-connection pairs of UNet.forward, recomputed through the
same layer semantics as forwardShape: for each expansion stage, the shape
of the upsampled tensor paired with the shape of the cached contracting
activation it is concatenated with, listed in the order the forward pass
performs the concatenations (enc4 with u4 first, enc1 with u1 last). -/
def skipPairShapes (in_channels init_features : Nat) (x : TShape) :
    Option (List (TShape × TShape)) :=
  let features := init_features
  obind (unet_block in_channels features x) fun enc1 =>
  obind (maxPool2x2 enc1) fun p1 =>
  obind (unet_block features (features * 2) p1) fun enc2 =>
  obind (maxPool2x2 enc2) fun p2 =>
  obind (unet_block (features * 2) (features * 4) p2) fun enc3 =>
  obind (maxPool2x2 enc3) fun p3 =>
  obind (unet_block (features * 4) (features * 8) p3) fun enc4 =>
  obind (maxPool2x2 enc4) fun p4 =>
  obind (unet_block (features * 8) (features * 16) p4) fun bottleneck =>
  obind (convTranspose2x2 (features * 16) (features * 8) bottleneck) fun u4 =>
  obind (catChannel u4 enc4) fun cat4 =>
  obind (unet_block ((features * 8) * 2) (features * 8) cat4) fun dec4 =>
  obind (convTranspose2x2 (features * 8) (features * 4) dec4) fun u3 =>
  obind (catChannel u3 enc3) fun cat3 =>
  obind (unet_block ((features * 4) * 2) (features * 4) cat3) fun dec3 =>
  obind (convTranspose2x2 (features * 4) (features * 2) dec3) fun u2 =>
  obind (catChannel u2 enc2) fun cat2 =>
  obind (unet_block ((features * 2) * 2) (features * 2) cat2) fun dec2 =>
  obind (convTranspose2x2 (features * 2) features dec2) fun u1 =>
  obind (catChannel u1 enc1) fun _cat1 =>
  some [(u4, enc4), (u3, enc3), (u2, enc2), (u1, enc1)]

/-! ### Trainable parameter counts -/

/-- Element count of the trainable tensors of nn.Conv2d(in_channels,
out_channels, kernel_size=k, bias=b): the weight has
out_channels * in_channels * k * k elements, plus out_channels bias
elements when bias is kept (the default). -/
def conv2dParams (in_channels out_channels k : Nat) (bias : Bool) : Nat :=
  out_channels * in_channels * k * k + (if bias then out_channels else 0)

/-- Element count of the trainable tensors of nn.BatchNorm2d(num_features):
weight and bias, num_features each (affine=True default). -/
def batchNorm2dParams (num_features : Nat) : Nat :=
  2 * num_features

/-- Element count of the trainable tensors of nn.ConvTranspose2d(
in_channels, out_channels, kernel_size=2, stride=2): the weight has
in_channels * out_channels * 2 * 2 elements plus out_channels bias
elements (bias=True default). -/
def convTranspose2dParams (in_channels out_channels : Nat) : Nat :=
  in_channels * out_channels * 2 * 2 + out_channels

/-- Trainable parameter count of one UNet.unet_block(in_channels,
features): two bias-free 3x3 convolutions and two batch norms. -/
def unet_blockParams (in_channels features : Nat) : Nat :=
  conv2dParams in_channels features 3 false + batchNorm2dParams features +
    conv2dParams features features 3 false + batchNorm2dParams features

/-- Total trainable parameter count of UNet(in_channels, out_channels,
init_features), summing every layer built in UNet.init in order:
encoder1..encoder4, bottleneck, upconv4..upconv1, decoder4..decoder1 and
the final 1x1 convolution (MaxPool, ReLU and Softmax have no
parameters). -/
def unetParamCount (in_channels out_channels init_features : Nat) : Nat :=
  let features := init_features
  unet_blockParams in_channels features +
    unet_blockParams features (features * 2) +
    unet_blockParams (features * 2) (features * 4) +
    unet_blockParams (features * 4) (features * 8) +
    unet_blockParams (features * 8) (features * 16) +
    convTranspose2dParams (features * 16) (features * 8) +
    unet_blockParams ((features * 8) * 2) (features * 8) +
    convTranspose2dParams (features * 8) (features * 4) +
    unet_blockParams ((features * 4) * 2) (features * 4) +
    convTranspose2dParams (features * 4) (features * 2) +
    unet_blockParams ((features * 2) * 2) (features * 2) +
    convTranspose2dParams (features * 2) features +
    unet_blockParams (features * 2) features +
    conv2dParams features out_channels 1 true

/-! ### Value-level embedding: slices, normalization, softmax -/

/-- A 2D slice extracted from a volume at a fixed depth index,
volume[:, :, slice_ix]: rows of rational intensity values. -/
abbrev Slice2D := List (List ℚ)

/-- Semantics of np.max on a flat nonempty array: the maximum element
(0 as a junk value on the empty array, where numpy raises instead). -/
def npMax : List ℚ → ℚ
  | [] => 0
  | [x] => x
  | x :: y :: t => max x (npMax (y :: t))

/-- np.max of a 2D slice: the maximum over all its elements. -/
def npMax2D (s : Slice2D) : ℚ :=
  npMax s.flatten

/-- The per-slice normalization of the training and inference code:
slc = volume[:, :, slice_ix] / np.max(volume[:, :, slice_ix]), every
element divided by the maximum of that same slice. -/
def normalizeSlice2D (s : Slice2D) : Slice2D :=
  s.map fun row => row.map fun v => v / npMax2D s

/-- Value semantics of nn.Softmax(dim=1) at one output pixel, over the
list of per-channel pre-activation values: each entry x is mapped to
e x / sum of e over all entries, where e is the exponential-like map
(abstract here: any strictly positive function; the library uses exp). -/
def softmaxChan (e : ℚ → ℚ) (l : List ℚ) : List ℚ :=
  l.map fun x => e x / (l.map e).sum

/-! ### IEEE-style value domain for the division-by-zero analysis -/

/-- An IEEE-754-style scalar as numpy produces it: a finite value, NaN,
or a signed infinity. -/
inductive NpFloat where
  | fin : ℚ → NpFloat
  | nan : NpFloat
  | inf : NpFloat
  | ninf : NpFloat
deriving DecidableEq, Repr

/-- numpy elementwise division on the IEEE-style domain: 0/0 is NaN,
x/0 is a signed infinity for finite nonzero x, NaN propagates. -/
def npDiv : NpFloat → NpFloat → NpFloat
  | NpFloat.fin a, NpFloat.fin b =>
      if b = 0 then (if a = 0 then NpFloat.nan else if 0 < a then NpFloat.inf else NpFloat.ninf)
      else NpFloat.fin (a / b)
  | NpFloat.nan, _ => NpFloat.nan
  | _, NpFloat.nan => NpFloat.nan
  | NpFloat.inf, NpFloat.fin b => if 0 ≤ b then NpFloat.inf else NpFloat.ninf
  | NpFloat.ninf, NpFloat.fin b => if 0 ≤ b then NpFloat.ninf else NpFloat.inf
  | NpFloat.fin _, NpFloat.inf => NpFloat.fin 0
  | NpFloat.fin _, NpFloat.ninf => NpFloat.fin 0
  | NpFloat.inf, NpFloat.inf => NpFloat.nan
  | NpFloat.inf, NpFloat.ninf => NpFloat.nan
  | NpFloat.ninf, NpFloat.inf => NpFloat.nan
  | NpFloat.ninf, NpFloat.ninf => NpFloat.nan

/-- The error outcome a numpy expression would have if it raised. -/
inductive NpErr where
  | raised : NpErr
deriving DecidableEq

/-- The slice normalization of the training loop evaluated with numpy
float semantics: under the default numpy error state (divide=warn,
invalid=warn) the expression volume_slice / np.max(volume_slice) always
returns an array value — a zero divisor yields NaN or infinity elements
together with a runtime warning, never a raised exception — so the
embedding is total and always in the ok branch of Except. -/
def normalizeSliceFloat (s : Slice2D) : Except NpErr (List (List NpFloat)) :=
  Except.ok (s.map fun row => row.map fun v => npDiv (NpFloat.fin v) (NpFloat.fin (npMax2D s)))

/-! ### The training loop (cell: The training loop) -/

/-- One observable action of the training loop, in program order:
clearing gradients, the forward pass on a (normalized) input slice, the
cross-entropy loss against an integer label slice, the backward pass,
and one optimizer step. -/
inductive TrainEvent where
  | zeroGrad : TrainEvent
  | forward : Slice2D → TrainEvent
  | lossCE : List (List Int) → TrainEvent
  | backward : TrainEvent
  | optStep : TrainEvent

/-- The body of the training loop at one slice index. Modelled from the
spec: the label-slice extraction is a TASK placeholder in the notebook
(lbl_tensor is used but its construction is left to the learner);
following the spec, it is modelled as reading the integer-valued label
slice at the same slice index with no normalization. Everything else
mirrors the code cell: normalize the intensity slice by its own maximum,
build the label slice, zero the gradients, forward pass, cross-entropy
loss, backward pass, one optimizer step. The mutable network parameters
are threaded as state P; step is the in-place parameter update performed
by optimizer.step() after the backward pass at a given slice index. The
second component records the actions in execution order. -/
def trainSliceStep {P : Type} (step : P → Nat → P) (vol : Nat → Slice2D)
    (lbl : Nat → List (List Int)) (st2 : P × List TrainEvent) (slice_ix : Nat) :
    P × List TrainEvent :=
  let slc := normalizeSlice2D (vol slice_ix)
  let lbl_tensor := lbl slice_ix
  let afterZero := (st2.1, st2.2 ++ [TrainEvent.zeroGrad])
  let afterFwd := (afterZero.1, afterZero.2 ++ [TrainEvent.forward slc])
  let afterLoss := (afterFwd.1,
    afterFwd.2 ++ [TrainEvent.lossCE lbl_tensor, TrainEvent.backward])
  (step afterLoss.1 slice_ix, afterLoss.2 ++ [TrainEvent.optStep])

/-- One epoch of the training loop: the inner for slice_ix in
range(0, 15) loop, visiting the slice indices in ascending order. -/
def trainEpochStep {P : Type} (step : P → Nat → P) (vol : Nat → Slice2D)
    (lbl : Nat → List (List Int)) (st : P × List TrainEvent) (_epoch : Nat) :
    P × List TrainEvent :=
  (List.range 15).foldl (trainSliceStep step vol lbl) st

/-- The outer for epoch in range(0, 10) loop over epochs. -/
def trainLoop {P : Type} (step : P → Nat → P) (vol : Nat → Slice2D)
    (lbl : Nat → List (List Int)) (p0 : P) : P × List TrainEvent :=
  (List.range 10).foldl (trainEpochStep step vol lbl) (p0, [])

/-- Events of one training visit as the spec words them: extract and
normalize the intensity slice, extract the integer label slice, clear
gradients before the forward pass, one forward pass, the cross-entropy
loss, one backward pass, one optimizer step. -/
def specSliceEvents (vol : Nat → Slice2D) (lbl : Nat → List (List Int)) (i : Nat) :
    List TrainEvent :=
  [TrainEvent.zeroGrad, TrainEvent.forward (normalizeSlice2D (vol i)),
    TrainEvent.lossCE (lbl i), TrainEvent.backward, TrainEvent.optStep]

/-- Concatenation of per-index event lists for indices 0, 1, ..., n-1 in
ascending, unshuffled order. -/
def catRange (f : Nat → List TrainEvent) : Nat → List TrainEvent
  | 0 => []
  | n + 1 => catRange f n ++ f n

/-- Iteration of a parameter update over indices 0, 1, ..., n-1 in
ascending order: exactly one update per index. -/
def foldRange {P : Type} (g : P → Nat → P) (p : P) : Nat → P
  | 0 => p
  | n + 1 => g (foldRange g p n) n

/-- The spec-side training trace: an outer epoch loop (10 epochs), an
inner loop over slice indices 0..14 in ascending order, five actions per
visit. -/
def specTrainEvents (vol : Nat → Slice2D) (lbl : Nat → List (List Int)) : List TrainEvent :=
  catRange (fun _ => catRange (specSliceEvents vol lbl) 15) 10

/-- The spec-side final parameters: one optimizer step per visit, slices
0..14 inside each of the 10 epochs, in ascending order. -/
def specTrainParams {P : Type} (step : P → Nat → P) (p0 : P) : P :=
  foldRange (fun p _ => foldRange step p 15) p0 10

/-! ### Inference and reconstruction (cells: Save results) -/

/-- Semantics of torch.argmax on a 1D tensor: the index of the first
occurrence of the maximum value (0 as a junk value on the empty list,
where the library raises instead). -/
def torchArgmax : List ℚ → Nat
  | [] => 0
  | [_] => 0
  | x :: y :: t =>
    let j := torchArgmax (y :: t)
    if x < (y :: t).getD j 0 then j + 1 else 0

/-- Semantics of torch.argmax(pred, dim=0) on a stacked prediction of
shape channels x height x width: at every pixel of the first channel
map, the arg-max across the channel axis of the per-channel values at
that pixel. -/
def argmaxDim0 (pred : List Slice2D) : List (List Nat) :=
  match pred with
  | [] => []
  | ch0 :: _ =>
    (List.range ch0.length).map fun r =>
      (List.range ((ch0.getD r []).length)).map fun c =>
        torchArgmax (pred.map fun ch => (ch.getD r []).getD c 0)

/-- Row dimensions of a 2D array: the length of each row; two arrays
have the same height and width exactly when their row dimensions
agree. -/
def rowDims {α : Type} (s : List (List α)) : List Nat :=
  s.map List.length

/-- Embedding of the full-depth inference and reconstruction. Modelled
from the spec: the loop itself is a TASK placeholder in the notebook
(only the single-slice mask = torch.argmax(pred, dim=0) cell is given);
following the spec, for every slice index across the full depth of the
input volume the slice is normalized identically to training, the
network net runs one forward pass producing the per-channel probability
maps, the arg-max across the channel axis gives the 2D label slice, and
the label slice is placed at the same depth index of the output. -/
def inferVolume (net : Slice2D → List Slice2D) (vol : Nat → Slice2D) (depth : Nat) :
    List (List (List Nat)) :=
  (List.range depth).map fun i => argmaxDim0 (net (normalizeSlice2D (vol i)))

/-! ### NIFTI persistence (cells: Save results, affine) -/

/-- A voxel-to-physical-space coordinate transform: a 4x4 rational
matrix, modelled as a function of row and column indices. -/
abbrev Affine := Fin 4 → Fin 4 → ℚ

/-- The identity (default) transform, which the notebook warns against
using when saving the mask. -/
def idAffine : Affine :=
  fun i j => if i = j then 1 else 0

/-- A NIFTI image as nibabel exposes it: voxel data together with its
affine transform. Saving is modelled as persisting the image content
unchanged, so the saved file is represented by the image itself. -/
structure Nifti1Image (α : Type) where
  data : α
  affine : Affine

/-- Semantics of nib.save: the file written to disk carries exactly the
data and affine of the image object. -/
def nibSave {α : Type} (img : Nifti1Image α) : Nifti1Image α :=
  img

/-- Embedding of the save cell: img_out = nib.Nifti1Image(mask3d,
org_volume.affine); nib.save(img_out, out path) — the output image is
built from the assembled mask with the affine read from the original
input intensity volume, and saved. -/
def saveLabelOutput {α β : Type} (org_volume : Nifti1Image α) (mask3d : β) : Nifti1Image β :=
  nibSave { data := mask3d, affine := org_volume.affine }

/-- A non-trivial affine with off-diagonal and non-unit-scale entries,
standing in for the spleen volume transform the notebook prints. -/
def exAffine : Affine :=
  ![![1, 2, 0, 3], ![0, 1, 0, 0], ![0, 0, 5, 7], ![0, 0, 0, 1]]

/-! ### Constructor defaults and the notebook instantiation -/

/-- Default of the in_channels argument of UNet.init. -/
def unetDefaultInChannels : Nat := 1

/-- Default of the out_channels argument of UNet.init. -/
def unetDefaultOutChannels : Nat := 1

/-- Default of the init_features argument of UNet.init. -/
def unetDefaultInitFeatures : Nat := 32

/-- The out_channels the notebook passes at instantiation:
unet = UNet(1, 2). -/
def notebookUNetOutChannels : Nat := 2

/-- The in_channels the notebook passes at instantiation:
unet = UNet(1, 2). -/
def notebookUNetInChannels : Nat := 1

/-! ## Theorems -/

/-- obind on a present value applies the continuation. -/
theorem obind_some {α β : Type} (a : α) (f : α → Option β) : obind (some a) f = f a := rfl

/-- A unet_block maps a matching nonempty shape to the same spatial size
with the target feature width. -/
theorem unet_block_shape (ci f c h w : Nat) (hc : c = ci) (hh : 1 ≤ h) (hw : 1 ≤ w) :
    unet_block ci f ⟨c, h, w⟩ = some ⟨f, h, w⟩ := by
  simp [unet_block, conv2d3x3, batchNorm2d, relu2d, obind, hc, hh, hw]

/-- Shape propagation through the whole forward pass on an input whose
spatial dims are positive multiples of 16: it succeeds and preserves the
spatial size, ending with out_channels channels. -/
theorem forwardShape_div16 (ci co f h w : Nat) (hh : 0 < h) (hw : 0 < w) :
    forwardShape ci co f ⟨ci, 16 * h, 16 * w⟩ = some ⟨co, 16 * h, 16 * w⟩ := by
  have d1 : 16 * h / 2 = 8 * h := by omega
  have d2 : 8 * h / 2 = 4 * h := by omega
  have d3 : 4 * h / 2 = 2 * h := by omega
  have d4 : 2 * h / 2 = h := by omega
  have e1 : 16 * w / 2 = 8 * w := by omega
  have e2 : 8 * w / 2 = 4 * w := by omega
  have e3 : 4 * w / 2 = 2 * w := by omega
  have e4 : 2 * w / 2 = w := by omega
  have m1 : 2 * (2 * h) = 4 * h := by omega
  have m2 : 2 * (4 * h) = 8 * h := by omega
  have m3 : 2 * (8 * h) = 16 * h := by omega
  have n1 : 2 * (2 * w) = 4 * w := by omega
  have n2 : 2 * (4 * w) = 8 * w := by omega
  have n3 : 2 * (8 * w) = 16 * w := by omega
  have g1 : 1 ≤ 16 * h := by omega
  have g2 : 1 ≤ 8 * h := by omega
  have g3 : 1 ≤ 4 * h := by omega
  have g4 : 1 ≤ 2 * h := by omega
  have g5 : 1 ≤ h := hh
  have k1 : 1 ≤ 16 * w := by omega
  have k2 : 1 ≤ 8 * w := by omega
  have k3 : 1 ≤ 4 * w := by omega
  have k4 : 1 ≤ 2 * w := by omega
  have k5 : 1 ≤ w := hw
  have p1 : 2 ≤ 16 * h := by omega
  have p2 : 2 ≤ 8 * h := by omega
  have p3 : 2 ≤ 4 * h := by omega
  have p4 : 2 ≤ 2 * h := by omega
  have q1 : 2 ≤ 16 * w := by omega
  have q2 : 2 ≤ 8 * w := by omega
  have q3 : 2 ≤ 4 * w := by omega
  have q4 : 2 ≤ 2 * w := by omega
  have c4 : f * 8 + f * 8 = f * 8 * 2 := by ring
  have c3 : f * 4 + f * 4 = f * 4 * 2 := by ring
  have c2 : f * 2 + f * 2 = f * 2 * 2 := by ring
  have c1 : f + f = f * 2 := by ring
  simp [forwardShape, unet_block, conv2d3x3, batchNorm2d, relu2d, maxPool2x2,
    convTranspose2x2, catChannel, conv2d1x1, softmaxDim1, obind,
    d1, d2, d3, d4, e1, e2, e3, e4, m1, m2, m3, n1, n2, n3,
    g1, g2, g3, g4, g5, k1, k2, k3, k4, k5, p1, p2, p3, p4, q1, q2, q3, q4,
    c4, c3, c2, c1]

/-- Shape propagation through the skip-pair computation on an input
whose spatial dims are positive multiples of 16: each concatenation
pairs an upsampled tensor and a cached encoder activation of exactly the
same channel count and spatial size, in reverse stage order. -/
theorem skipPairShapes_div16 (ci f h w : Nat) (hh : 0 < h) (hw : 0 < w) :
    skipPairShapes ci f ⟨ci, 16 * h, 16 * w⟩ =
      some [(⟨f * 8, 2 * h, 2 * w⟩, ⟨f * 8, 2 * h, 2 * w⟩),
            (⟨f * 4, 4 * h, 4 * w⟩, ⟨f * 4, 4 * h, 4 * w⟩),
            (⟨f * 2, 8 * h, 8 * w⟩, ⟨f * 2, 8 * h, 8 * w⟩),
            (⟨f, 16 * h, 16 * w⟩, ⟨f, 16 * h, 16 * w⟩)] := by
  have d1 : 16 * h / 2 = 8 * h := by omega
  have d2 : 8 * h / 2 = 4 * h := by omega
  have d3 : 4 * h / 2 = 2 * h := by omega
  have d4 : 2 * h / 2 = h := by omega
  have e1 : 16 * w / 2 = 8 * w := by omega
  have e2 : 8 * w / 2 = 4 * w := by omega
  have e3 : 4 * w / 2 = 2 * w := by omega
  have e4 : 2 * w / 2 = w := by omega
  have m1 : 2 * (2 * h) = 4 * h := by omega
  have m2 : 2 * (4 * h) = 8 * h := by omega
  have m3 : 2 * (8 * h) = 16 * h := by omega
  have n1 : 2 * (2 * w) = 4 * w := by omega
  have n2 : 2 * (4 * w) = 8 * w := by omega
  have n3 : 2 * (8 * w) = 16 * w := by omega
  have g1 : 1 ≤ 16 * h := by omega
  have g2 : 1 ≤ 8 * h := by omega
  have g3 : 1 ≤ 4 * h := by omega
  have g4 : 1 ≤ 2 * h := by omega
  have g5 : 1 ≤ h := hh
  have k1 : 1 ≤ 16 * w := by omega
  have k2 : 1 ≤ 8 * w := by omega
  have k3 : 1 ≤ 4 * w := by omega
  have k4 : 1 ≤ 2 * w := by omega
  have k5 : 1 ≤ w := hw
  have p1 : 2 ≤ 16 * h := by omega
  have p2 : 2 ≤ 8 * h := by omega
  have p3 : 2 ≤ 4 * h := by omega
  have p4 : 2 ≤ 2 * h := by omega
  have q1 : 2 ≤ 16 * w := by omega
  have q2 : 2 ≤ 8 * w := by omega
  have q3 : 2 ≤ 4 * w := by omega
  have q4 : 2 ≤ 2 * w := by omega
  have c4 : f * 8 + f * 8 = f * 8 * 2 := by ring
  have c3 : f * 4 + f * 4 = f * 4 * 2 := by ring
  have c2 : f * 2 + f * 2 = f * 2 * 2 := by ring
  simp [skipPairShapes, unet_block, conv2d3x3, batchNorm2d, relu2d, maxPool2x2,
    convTranspose2x2, catChannel, obind,
    d1, d2, d3, d4, e1, e2, e3, e4, m1, m2, m3, n1, n2, n3,
    g1, g2, g3, g4, g5, k1, k2, k3, k4, k5, p1, p2, p3, p4, q1, q2, q3, q4,
    c4, c3, c2]

/-- Claim C2: for every input image whose spatial height and width are
each (positive) multiples of 16, with C_in input channels, the forward
pass of UNet(C_in, C_out, F) returns an output of the same spatial size
with C_out channels. -/
theorem claim_c2_output_shape (in_channels out_channels init_features h w : Nat)
    (hh : 0 < h) (hw : 0 < w) :
    forwardShape in_channels out_channels init_features ⟨in_channels, 16 * h, 16 * w⟩ =
      some ⟨out_channels, 16 * h, 16 * w⟩ :=
  forwardShape_div16 in_channels out_channels init_features h w hh hw

/-- Witness for C2: the canonical UNet(1, 2, 32) on a 16 x 16 input
yields a 2-channel 16 x 16 output. -/
theorem claim_c2_witness :
    forwardShape 1 2 32 ⟨1, 16, 16⟩ = some ⟨2, 16, 16⟩ := by
  have hx := claim_c2_output_shape 1 2 32 1 1 (by decide) (by decide)
  simpa using hx

/-- Claim C8: on inputs whose spatial dims are positive multiples of 16,
every channel concatenation of the expansion path pairs the cached
contracting-stage activation with an upsampled tensor of identical
channel count and spatial size, stages matched in reverse order (enc4
with the upsampled bottleneck first, enc1 last), and the whole forward
pass succeeds: no shape-mismatch branch is reachable. -/
theorem claim_c8_skip_connections (in_channels out_channels init_features h w : Nat)
    (hh : 0 < h) (hw : 0 < w) :
    skipPairShapes in_channels init_features ⟨in_channels, 16 * h, 16 * w⟩ =
      some [(⟨init_features * 8, 2 * h, 2 * w⟩, ⟨init_features * 8, 2 * h, 2 * w⟩),
            (⟨init_features * 4, 4 * h, 4 * w⟩, ⟨init_features * 4, 4 * h, 4 * w⟩),
            (⟨init_features * 2, 8 * h, 8 * w⟩, ⟨init_features * 2, 8 * h, 8 * w⟩),
            (⟨init_features, 16 * h, 16 * w⟩, ⟨init_features, 16 * h, 16 * w⟩)] ∧
    (forwardShape in_channels out_channels init_features ⟨in_channels, 16 * h, 16 * w⟩).isSome := by
  refine ⟨skipPairShapes_div16 in_channels init_features h w hh hw, ?_⟩
  rw [forwardShape_div16 in_channels out_channels init_features h w hh hw]
  rfl

/-- Witness for C8: the canonical UNet(1, 2, 32) on a 16 x 16 input has
matching skip pairs at shapes 256x2x2, 128x4x4, 64x8x8, 32x16x16 and a
successful forward pass. -/
theorem claim_c8_witness :
    skipPairShapes 1 32 ⟨1, 16, 16⟩ =
      some [(⟨256, 2, 2⟩, ⟨256, 2, 2⟩), (⟨128, 4, 4⟩, ⟨128, 4, 4⟩),
            (⟨64, 8, 8⟩, ⟨64, 8, 8⟩), (⟨32, 16, 16⟩, ⟨32, 16, 16⟩)] ∧
    (forwardShape 1 2 32 ⟨1, 16, 16⟩).isSome := by
  have hx := claim_c8_skip_connections 1 2 32 1 1 (by decide) (by decide)
  simpa using hx

/-- Claim C4: for the canonical architecture UNet(C_in=1, C_out=2, F=32),
the total trainable parameter count — the sum over every trainable weight
tensor of its element count, layer by layer — equals the fixed constant
7762498. -/
theorem claim_c4_param_count : unetParamCount 1 2 32 = 7762498 := by decide

/-- Claim C1: the affine attached to the persisted output label volume is
exactly the affine of the original input intensity volume, for every
source volume and mask; and for a source whose transform has off-diagonal
and non-unit-scale terms the persisted transform is in particular not the
identity. -/
theorem claim_c1_affine_roundtrip :
    (∀ (α β : Type) (org_volume : Nifti1Image α) (mask3d : β),
      (saveLabelOutput org_volume mask3d).affine = org_volume.affine) ∧
    (saveLabelOutput (Nifti1Image.mk (0 : Nat) exAffine) (0 : Nat)).affine ≠ idAffine := by
  constructor
  · intro α β org_volume mask3d
    rfl
  · decide

/-- Every element of a list is bounded by its npMax. -/
theorem le_npMax : ∀ (l : List ℚ), ∀ v ∈ l, v ≤ npMax l
  | [], v, hv => absurd hv (List.not_mem_nil v)
  | [x], v, hv => by
    rcases List.mem_singleton.mp hv with rfl
    simp [npMax]
  | x :: y :: t, v, hv => by
    rcases List.mem_cons.mp hv with rfl | h
    · simp only [npMax]
      exact le_max_left v (npMax (y :: t))
    · have ih := le_npMax (y :: t) v h
      calc v ≤ npMax (y :: t) := ih
        _ ≤ max x (npMax (y :: t)) := le_max_right _ _
        _ = npMax (x :: y :: t) := by simp [npMax]

/-- npMax of an all-zero list is 0. -/
theorem npMax_allZero : ∀ (l : List ℚ), (∀ v ∈ l, v = 0) → npMax l = 0
  | [], _ => rfl
  | [x], h => by simpa [npMax] using h x (List.mem_singleton.mpr rfl)
  | x :: y :: t, h => by
    have hx : x = 0 := h x (List.mem_cons_self x (y :: t))
    have ht : npMax (y :: t) = 0 :=
      npMax_allZero (y :: t) fun v hv => h v (List.mem_cons_of_mem x hv)
    simp [npMax, hx, ht]

/-- Dividing every summand by a common constant divides the sum. -/
theorem sum_map_div : ∀ (l : List ℚ) (f : ℚ → ℚ) (c : ℚ),
    (l.map fun x => f x / c).sum = (l.map f).sum / c
  | [], _, c => by simp
  | x :: t, f, c => by
    simp only [List.map_cons, List.sum_cons, sum_map_div t f c, add_div]

/-- Claim C5 counterexample: the slice [[-1, 2]] (a negative intensity
next to a positive one, as in Hounsfield-unit CT data) is normalized by
its maximum 2 to [[-1/2, 1]], and -1/2 lies outside [0, 1]; the claim
as stated fails for every slice holding a negative value. -/
theorem claim_c5_counterexample :
    ¬ (∀ row ∈ normalizeSlice2D [[-1, 2]], ∀ v ∈ row, 0 ≤ v ∧ v ≤ 1) := by
  have hs : normalizeSlice2D [[-1, 2]] = [[-(1 : ℚ) / 2, 1]] := by
    norm_num [normalizeSlice2D, npMax2D, npMax, max_def]
  intro hall
  rw [hs] at hall
  have hmem := hall [-(1 : ℚ) / 2, 1] (List.mem_singleton.mpr rfl)
  have hv := hmem (-(1 : ℚ) / 2) (by simp)
  have hneg : (-(1 : ℚ) / 2) < 0 := by norm_num
  linarith [hv.1]

/-- Claim C5 as amended: for every slice all of whose values are
non-negative and whose maximum is positive, dividing the slice by its
own maximum produces values that all lie in [0, 1]. -/
theorem claim_c5_normalized_range (s : Slice2D)
    (hnn : ∀ row ∈ s, ∀ v ∈ row, 0 ≤ v) (hpos : 0 < npMax2D s) :
    ∀ row ∈ normalizeSlice2D s, ∀ v ∈ row, 0 ≤ v ∧ v ≤ 1 := by
  intro row hrow v hv
  simp only [normalizeSlice2D, List.mem_map] at hrow
  obtain ⟨r0, hr0, rfl⟩ := hrow
  simp only [List.mem_map] at hv
  obtain ⟨x, hx, rfl⟩ := hv
  have hx0 : 0 ≤ x := hnn r0 hr0 x hx
  refine ⟨div_nonneg hx0 (le_of_lt hpos), ?_⟩
  rw [div_le_one hpos]
  exact le_npMax s.flatten x (List.mem_flatten.mpr ⟨r0, hr0, hx⟩)

/-- Witness for the amended C5 at the concrete slice [[1], [0, 3]]:
its values are non-negative, its maximum is positive, and the
normalized slice lies in [0, 1]. -/
theorem claim_c5_witness :
    0 < npMax2D [[1], [0, 3]] ∧
    (∀ row ∈ normalizeSlice2D [[1], [0, 3]], ∀ v ∈ row, 0 ≤ v ∧ v ≤ 1) :=
  ⟨by decide, claim_c5_normalized_range [[1], [0, 3]] (by decide) (by decide)⟩

/-- Claim C7 counterexample: on the all-zero slice [[0, 0]] the
normalization evaluates to a returned array of NaN values (0/0 under the
default numpy error state warns and yields NaN), not to a raised error:
the computation is in the ok branch, so no immediate fatal error
occurs. -/
theorem claim_c7_counterexample :
    normalizeSliceFloat [[0, 0]] = Except.ok [[NpFloat.nan, NpFloat.nan]] ∧
    ¬ ∃ err, normalizeSliceFloat [[0, 0]] = Except.error err := by
  refine ⟨rfl, ?_⟩
  rintro ⟨err, h⟩
  exact Except.noConfusion h

/-- Claim C7 as amended: on every all-zero slice the normalization
division completes and returns an all-NaN slice (it is never a raised
error), and nothing in the loop handles or clears the NaN values, which
therefore propagate into the subsequent computation. -/
theorem claim_c7_nan_propagation (s : Slice2D) (hz : ∀ row ∈ s, ∀ v ∈ row, v = 0) :
    normalizeSliceFloat s = Except.ok (s.map fun row => row.map fun _ => NpFloat.nan) := by
  have hflat : ∀ v ∈ s.flatten, v = 0 := by
    intro v hv
    obtain ⟨r, hr, hvr⟩ := List.mem_flatten.mp hv
    exact hz r hr v hvr
  have hmax : npMax2D s = 0 := by
    simpa [npMax2D] using npMax_allZero s.flatten hflat
  simp only [normalizeSliceFloat, hmax]
  refine congrArg Except.ok ?_
  refine List.map_congr_left ?_
  intro row hrow
  refine List.map_congr_left ?_
  intro v hv
  have hv0 : v = 0 := hz row hrow v hv
  subst hv0
  simp [npDiv]

/-- Witness for the amended C7 at the concrete all-zero slice
[[0], [0]]. -/
theorem claim_c7_witness :
    normalizeSliceFloat [[0], [0]] = Except.ok [[NpFloat.nan], [NpFloat.nan]] := by
  have hx := claim_c7_nan_propagation [[0], [0]] (by decide)
  simpa using hx

/-- Claim C3: for any per-pixel channel vector (any pixel of any input
accepted by the network), the softmax output values are non-negative and
sum to exactly 1, for every strictly positive exponential-like map: each
pixel of the output is a probability distribution over the classes. -/
theorem claim_c3_softmax_distribution (e : ℚ → ℚ) (he : ∀ x, 0 < e x)
    (l : List ℚ) (hl : l ≠ []) :
    (∀ y ∈ softmaxChan e l, 0 ≤ y) ∧ (softmaxChan e l).sum = 1 := by
  have hmapne : l.map e ≠ [] := by simpa using hl
  have hS : 0 < (l.map e).sum := by
    refine List.sum_pos _ ?_ hmapne
    intro a ha
    obtain ⟨x, _, rfl⟩ := List.mem_map.mp ha
    exact he x
  constructor
  · intro y hy
    obtain ⟨x, _, rfl⟩ := List.mem_map.mp hy
    exact div_nonneg (le_of_lt (he x)) (le_of_lt hS)
  · simp only [softmaxChan]
    rw [sum_map_div l e ((l.map e).sum)]
    exact div_self (ne_of_gt hS)

/-- Witness for C3 at the channel vector [0, 1] with the positive map
x maps to 1 + x * x. -/
theorem claim_c3_witness :
    (∀ y ∈ softmaxChan (fun x => 1 + x * x) [0, 1], 0 ≤ y) ∧
    (softmaxChan (fun x => 1 + x * x) [0, 1]).sum = 1 :=
  claim_c3_softmax_distribution (fun x => 1 + x * x)
    (fun x => by show (0 : ℚ) < 1 + x * x; nlinarith [mul_self_nonneg x]) [0, 1]
    (by decide)

/-- Claim C10: the UNet constructor default for out_channels is 1 (not
the 2 of the canonical contract), and under the channel-axis softmax a
single-channel output is constantly 1 at every pixel, for every
pre-activation value and every strictly positive exponential-like map;
the two-class behaviour exists only because the notebook instantiates
UNet(1, 2) explicitly. -/
theorem claim_c10_default_single_channel (e : ℚ → ℚ) (he : ∀ x, 0 < e x) :
    unetDefaultOutChannels = 1 ∧ notebookUNetOutChannels = 2 ∧
    ∀ x : ℚ, softmaxChan e [x] = [1] := by
  refine ⟨rfl, rfl, ?_⟩
  intro x
  have hx : e x / e x = 1 := div_self (ne_of_gt (he x))
  simp [softmaxChan, hx]

/-- Witness for C10 with the positive map x maps to 1 + x * x. -/
theorem claim_c10_witness :
    unetDefaultOutChannels = 1 ∧ notebookUNetOutChannels = 2 ∧
    ∀ x : ℚ, softmaxChan (fun y => 1 + y * y) [x] = [1] :=
  claim_c10_default_single_channel (fun y => 1 + y * y)
    (fun y => by show (0 : ℚ) < 1 + y * y; nlinarith [mul_self_nonneg y])

/-- One slice visit updates the parameters once via step and appends the
five spec-side events for that slice index. -/
theorem trainSliceStep_eq {P : Type} (step : P → Nat → P) (vol : Nat → Slice2D)
    (lbl : Nat → List (List Int)) (p : P) (acc : List TrainEvent) (i : Nat) :
    trainSliceStep step vol lbl (p, acc) i = (step p i, acc ++ specSliceEvents vol lbl i) := by
  simp [trainSliceStep, specSliceEvents]

/-- The inner fold over slice indices 0..m-1 iterates step in ascending
order and appends the per-slice event lists in ascending order. -/
theorem foldl_trainSliceStep {P : Type} (step : P → Nat → P) (vol : Nat → Slice2D)
    (lbl : Nat → List (List Int)) :
    ∀ (m : Nat) (st : P × List TrainEvent),
      (List.range m).foldl (trainSliceStep step vol lbl) st =
        (foldRange step st.1 m, st.2 ++ catRange (specSliceEvents vol lbl) m) := by
  intro m
  induction m with
  | zero => intro st; simp [foldRange, catRange]
  | succ m ih =>
    intro st
    rw [List.range_succ, List.foldl_append, ih st]
    simp only [List.foldl_cons, List.foldl_nil, trainSliceStep_eq]
    simp [foldRange, catRange]

/-- The outer fold over epochs 0..n-1 iterates the inner fold and
concatenates the per-epoch event lists. -/
theorem foldl_trainEpochStep {P : Type} (step : P → Nat → P) (vol : Nat → Slice2D)
    (lbl : Nat → List (List Int)) :
    ∀ (n : Nat) (st : P × List TrainEvent),
      (List.range n).foldl (trainEpochStep step vol lbl) st =
        (foldRange (fun p _ => foldRange step p 15) st.1 n,
          st.2 ++ catRange (fun _ => catRange (specSliceEvents vol lbl) 15) n) := by
  intro n
  induction n with
  | zero => intro st; simp [foldRange, catRange]
  | succ n ih =>
    intro st
    rw [List.range_succ, List.foldl_append, ih st]
    simp only [List.foldl_cons, List.foldl_nil, trainEpochStep]
    rw [foldl_trainSliceStep step vol lbl 15]
    simp [foldRange, catRange]

/-- Claim C6: the training procedure is an outer loop over the 10 epochs
and, inside each epoch, a loop over the restricted slice range 0..14 in
ascending unshuffled order; each visit, in order, normalizes the
intensity slice by its own maximum, clears accumulated gradients before
the forward pass, runs one forward pass, computes the cross-entropy loss
against the integer label slice, runs one backward pass, and applies
exactly one optimizer step, so the final parameters are exactly the
150-fold iteration of the step update over those visits. -/
theorem claim_c6_training_loop {P : Type} (step : P → Nat → P) (vol : Nat → Slice2D)
    (lbl : Nat → List (List Int)) (p0 : P) :
    trainLoop step vol lbl p0 = (specTrainParams step p0, specTrainEvents vol lbl) := by
  rw [trainLoop, foldl_trainEpochStep step vol lbl 10 (p0, [])]
  simp [specTrainParams, specTrainEvents]

/-- torchArgmax returns a valid index whose value bounds every element:
it is the arg-max of the list. -/
theorem torchArgmax_spec : ∀ (l : List ℚ), l ≠ [] →
    torchArgmax l < l.length ∧ ∀ y ∈ l, y ≤ l.getD (torchArgmax l) 0
  | [], h => absurd rfl h
  | [x], _ => by
    refine ⟨by simp [torchArgmax], ?_⟩
    intro y hy
    rcases List.mem_singleton.mp hy with rfl
    simp [torchArgmax]
  | x :: y :: t, _ => by
    obtain ⟨ihlt, ihmax⟩ := torchArgmax_spec (y :: t) (by simp)
    have hdef : torchArgmax (x :: y :: t) =
        if x < (y :: t).getD (torchArgmax (y :: t)) 0 then torchArgmax (y :: t) + 1 else 0 := rfl
    by_cases hlt : x < (y :: t).getD (torchArgmax (y :: t)) 0
    · have hval : torchArgmax (x :: y :: t) = torchArgmax (y :: t) + 1 := by
        rw [hdef, if_pos hlt]
      refine ⟨?_, ?_⟩
      · rw [hval, List.length_cons]
        exact Nat.succ_lt_succ ihlt
      · intro z hz
        rw [hval]
        have hgetD : (x :: y :: t).getD (torchArgmax (y :: t) + 1) 0 =
            (y :: t).getD (torchArgmax (y :: t)) 0 := rfl
        rw [hgetD]
        rcases List.mem_cons.mp hz with rfl | hz2
        · exact le_of_lt hlt
        · exact ihmax z hz2
    · have hval : torchArgmax (x :: y :: t) = 0 := by
        rw [hdef, if_neg hlt]
      refine ⟨?_, ?_⟩
      · rw [hval]; simp
      · intro z hz
        rw [hval]
        have hx : (x :: y :: t).getD 0 0 = x := rfl
        rw [hx]
        rcases List.mem_cons.mp hz with rfl | hz2
        · exact le_refl z
        · exact le_trans (ihmax z hz2) (le_of_not_lt hlt)

/-- Mapping a function over positional getD reads of a list, in index
order, is mapping the function over the list. -/
theorem map_getD_range {α β : Type} (f : α → β) (d : α) :
    ∀ (l : List α), (List.range l.length).map (fun i => f (l.getD i d)) = l.map f
  | [] => by simp
  | a :: t => by
    rw [List.length_cons, List.range_succ_eq_map]
    simp only [List.map_cons, List.map_map]
    refine congrArg₂ List.cons rfl ?_
    rw [← map_getD_range f d t]
    refine List.map_congr_left ?_
    intro i _
    rfl

/-- The arg-max reconstruction of a nonempty channel stack has the row
dimensions of the first channel map. -/
theorem rowDims_argmaxDim0 (ch0 : Slice2D) (rest : List Slice2D) :
    rowDims (argmaxDim0 (ch0 :: rest)) = rowDims ch0 := by
  simp only [argmaxDim0, rowDims, List.map_map]
  have h2 : (List.length ∘ fun r =>
      (List.range ((ch0.getD r []).length)).map fun c =>
        torchArgmax ((ch0 :: rest).map fun ch => (ch.getD r []).getD c 0)) =
      fun r => (ch0.getD r []).length := by
    funext r
    simp
  rw [h2]
  exact map_getD_range List.length [] ch0

/-- Per-slice normalization preserves the row dimensions of a slice. -/
theorem rowDims_normalizeSlice2D (s : Slice2D) :
    rowDims (normalizeSlice2D s) = rowDims s := by
  simp [rowDims, normalizeSlice2D, List.map_map, Function.comp]

/-- Reading the reconstruction at depth index i gives the arg-max slice
of the forward pass on the normalized slice i. -/
theorem inferVolume_getD (net : Slice2D → List Slice2D) (vol : Nat → Slice2D)
    (depth i : Nat) (hi : i < depth) :
    (inferVolume net vol depth).getD i [] = argmaxDim0 (net (normalizeSlice2D (vol i))) := by
  rw [inferVolume, List.getD_eq_getElem?_getD, List.getElem?_map, List.getElem?_range hi]
  rfl

/-- Claim C9: for every slice index across the full depth of the input
volume, the per-pixel predicted class is the arg-max of the network
output across the channel axis (torchArgmax picks an index attaining the
maximum), the resulting 2D label slice has the same height and width as
the input slice, and it is inserted at the corresponding depth index of
an output array whose depth equals the input depth. -/
theorem claim_c9_reconstruction (net : Slice2D → List Slice2D) (vol : Nat → Slice2D)
    (depth : Nat)
    (hch : ∀ s, ∀ ch ∈ net s, rowDims ch = rowDims s)
    (hne : ∀ s, net s ≠ []) :
    (inferVolume net vol depth).length = depth ∧
    (∀ i, i < depth →
      (inferVolume net vol depth).getD i [] = argmaxDim0 (net (normalizeSlice2D (vol i)))) ∧
    (∀ i, i < depth →
      rowDims ((inferVolume net vol depth).getD i []) = rowDims (vol i)) ∧
    (∀ l : List ℚ, l ≠ [] → torchArgmax l < l.length ∧ ∀ y ∈ l, y ≤ l.getD (torchArgmax l) 0) := by
  refine ⟨by simp [inferVolume], inferVolume_getD net vol depth, ?_,
    fun l hl => torchArgmax_spec l hl⟩
  intro i hi
  rw [inferVolume_getD net vol depth i hi]
  rcases hpred : net (normalizeSlice2D (vol i)) with _ | ⟨ch0, rest⟩
  · exact absurd hpred (hne _)
  · rw [rowDims_argmaxDim0 ch0 rest]
    have hch0 : rowDims ch0 = rowDims (normalizeSlice2D (vol i)) :=
      hch _ ch0 (by rw [hpred]; exact List.mem_cons_self ch0 rest)
    rw [hch0, rowDims_normalizeSlice2D]

/-- Witness for C9: a two-channel network that echoes its input slice,
over a depth-2 volume of constant slices. -/
theorem claim_c9_witness :
    (inferVolume (fun s => [s, s]) (fun _ => [[1, 2]]) 2).length = 2 ∧
    (∀ i, i < 2 →
      (inferVolume (fun s => [s, s]) (fun _ => [[1, 2]]) 2).getD i [] =
        argmaxDim0 ((fun s => [s, s]) (normalizeSlice2D ((fun _ => [[1, 2]]) i)))) ∧
    (∀ i, i < 2 →
      rowDims ((inferVolume (fun s => [s, s]) (fun _ => [[1, 2]]) 2).getD i []) =
        rowDims ((fun _ : Nat => ([[1, 2]] : Slice2D)) i)) ∧
    (∀ l : List ℚ, l ≠ [] → torchArgmax l < l.length ∧ ∀ y ∈ l, y ≤ l.getD (torchArgmax l) 0) := by
  refine claim_c9_reconstruction (fun s => [s, s]) (fun _ => [[1, 2]]) 2 ?_ ?_
  · intro s ch hmem
    rcases List.mem_cons.mp hmem with rfl | h2
    · rfl
    · rcases List.mem_singleton.mp h2 with rfl
      rfl
  · intro s
    simp
